import Mathlib

/-!
# Verification of the gas-balance-risk feature/forecast core

Shallow embedding of the panel-construction and forecast-inference core of
the `gas-balance-risk` repository:

* `src/models/features/build_model_frame.py`
  (`_ensure_daily_index`, `_build_stress_from_notices`,
   `_weekly_to_daily_ffill`, `build_model_frame`)
* `src/models/features/derive_forecast_inputs.py` (`derive_forecast_inputs`)
* `src/models/features/standardize.py` (`zscore`)
* `src/models/volatility/vol_risk_model.py` (`_zscore_series`)
* `src/models/stress/forecast_stress_event.py` (`forecast_stress_event_prob`)
* `src/models/volatility/forecast_vol_risk.py` (`forecast_vol_risk`)

Modelling conventions:

* A UTC instant is an integer number of seconds since the epoch (`Int`).
  A calendar day is an integer day number; `floorDay` models pandas
  `.dt.floor("D")` (floor division toward -infinity).
* A float that may be NaN/NaT is `Option ℚ` / `Option Int`
  (`none` = NaN/NaT).  `pd.to_datetime(..., errors="coerce")` and
  `pd.to_numeric(..., errors="coerce")` are modelled by taking the
  already-coerced `Option` value as input.
* Python exceptions of the modelled functions are `Except.error`.
* `np.sqrt` (inside `np.nanstd`) and `np.exp` are irrational on floats;
  they are passed in as explicit function parameters `sqrtQ` / `expF`,
  and theorems assume only properties every implementation of them has
  (`sqrtQ 0 = 0`, `0 ≤ expF t`).
* `np.random.standard_t(df=nu, size=n)` is modelled by an explicit noise
  generator parameter `noiseGen`, applied to the (floored) `nu` vector
  that the code passes as the `df=` argument.
-/

namespace GasBalanceRisk

/-- One day is 86400 seconds; `floorDay` models pandas `.dt.floor("D")`
followed by taking the date: floor division toward minus infinity. -/
def floorDay (t : Int) : Int := Int.fdiv t 86400

/-- `rangeFrom s n = [s, s+1, ..., s+n-1]`. -/
def rangeFrom (s : Int) : Nat → List Int
  | 0 => []
  | n + 1 => s :: rangeFrom (s + 1) n

/-- `pd.date_range(s, e, freq="D")` for day-floored bounds `s ≤ e` is the
inclusive list `[s, s+1, ..., e]`; for `s > e` it is empty. -/
def dateRange (s e : Int) : List Int := rangeFrom s (e + 1 - s).toNat

theorem mem_rangeFrom {d s : Int} {n : Nat} :
    d ∈ rangeFrom s n ↔ s ≤ d ∧ d < s + n := by
  induction n generalizing s with
  | zero => simp [rangeFrom]
  | succ n ih =>
    simp only [rangeFrom, List.mem_cons, ih]
    omega

theorem mem_dateRange {d s e : Int} : d ∈ dateRange s e ↔ s ≤ d ∧ d ≤ e := by
  rw [dateRange, mem_rangeFrom]
  omega

theorem rangeFrom_nodup (s : Int) (n : Nat) : (rangeFrom s n).Nodup := by
  induction n generalizing s with
  | zero => simp [rangeFrom]
  | succ n ih =>
    simp only [rangeFrom, List.nodup_cons]
    refine ⟨fun h => ?_, ih (s + 1)⟩
    rw [mem_rangeFrom] at h
    omega

theorem dateRange_nodup (s e : Int) : (dateRange s e).Nodup :=
  rangeFrom_nodup _ _

/-! ## A small executable sort

Pandas `sort_values` / `sort_index` / sorted `groupby` keys are modelled by
an insertion sort over a boolean comparison.  (Pandas' default quicksort is
not stable; none of the verified claims depends on the relative order of
rows carrying equal keys, only on the key sequence itself.) -/

/-- Insert `x` into `l` in front of the first element `y` with `le x y`. -/
def insertSorted {α : Type} (le : α → α → Bool) (x : α) : List α → List α
  | [] => [x]
  | y :: ys => if le x y then x :: y :: ys else y :: insertSorted le x ys

/-- Insertion sort by the boolean comparison `le`. -/
def sortLe {α : Type} (le : α → α → Bool) : List α → List α
  | [] => []
  | x :: xs => insertSorted le x (sortLe le xs)

theorem insertSorted_perm {α : Type} (le : α → α → Bool) (x : α) (l : List α) :
    List.Perm (insertSorted le x l) (x :: l) := by
  induction l with
  | nil => simp [insertSorted]
  | cons y ys ih =>
    by_cases h : le x y
    · simp [insertSorted, h]
    · simp only [insertSorted, h, if_neg, Bool.false_eq_true, if_false]
      exact (ih.cons y).trans (List.Perm.swap x y ys)

theorem sortLe_perm {α : Type} (le : α → α → Bool) (l : List α) :
    List.Perm (sortLe le l) l := by
  induction l with
  | nil => simp [sortLe]
  | cons x xs ih =>
    exact (insertSorted_perm le x (sortLe le xs)).trans (ih.cons x)

theorem insertSorted_sorted {α : Type} {le : α → α → Bool}
    (htot : ∀ a b, le a b = true ∨ le b a = true)
    (htrans : ∀ a b c, le a b = true → le b c = true → le a c = true)
    {l : List α} (hl : l.Pairwise (fun a b => le a b = true)) (x : α) :
    (insertSorted le x l).Pairwise (fun a b => le a b = true) := by
  induction l with
  | nil => simp [insertSorted]
  | cons y ys ih =>
    rcases List.pairwise_cons.mp hl with ⟨hy, hys⟩
    by_cases h : le x y
    · simp only [insertSorted, h, if_true]
      refine List.pairwise_cons.mpr ⟨?_, hl⟩
      intro b hb
      rcases hb with _ | hb
      · exact h
      · exact htrans x y _ h (hy _ (by assumption))
    · simp only [insertSorted, h, Bool.false_eq_true, if_false]
      refine List.pairwise_cons.mpr ⟨?_, ih hys⟩
      intro b hb
      have hyx : le y x = true := by
        rcases htot x y with h' | h'
        · exact absurd h' h
        · exact h'
      have := List.mem_cons.mp ((insertSorted_perm le x ys).mem_iff.mp hb)
      rcases this with h' | h'
      · subst h'; exact hyx
      · exact hy _ h'

theorem sortLe_sorted {α : Type} {le : α → α → Bool}
    (htot : ∀ a b, le a b = true ∨ le b a = true)
    (htrans : ∀ a b c, le a b = true → le b c = true → le a c = true)
    (l : List α) :
    (sortLe le l).Pairwise (fun a b => le a b = true) := by
  induction l with
  | nil => simp [sortLe]
  | cons x xs ih => exact insertSorted_sorted htot htrans ih x

/-! ## Interval Expander — `_build_stress_from_notices`

`src/models/features/build_model_frame.py`, lines 34-87.  A notice row after
`load_notices_df` carries `notice_id`, the coerced timestamps `posted_dt`,
`effective_dt`, `end_dt` (NaT = `none`) and `critical` (NaN = `none`). -/

/-- A notice record as seen by `_build_stress_from_notices` (after the
`pd.to_datetime(..., utc=True, errors="coerce")` re-parsing at the top of
the function, which the `Option Int` fields model). -/
structure Notice where
  noticeId : Nat
  postedDt : Option Int
  effectiveDt : Option Int
  endDt : Option Int
  critical : Option Bool
deriving Repr, DecidableEq

/-- `n["effective_dt"].fillna(n["posted_dt"])`. -/
def effDt (n : Notice) : Option Int := n.effectiveDt.or n.postedDt

/-- `n["end_dt"].fillna(n["effective_dt"])` (after the effective fill). -/
def endDtEff (n : Notice) : Option Int := n.endDt.or (effDt n)

/-- `effective_dt.dt.floor("D")` as a day number. -/
def startDay (n : Notice) : Option Int := (effDt n).map floorDay

/-- `end_dt.dt.floor("D")` as a day number. -/
def endDay (n : Notice) : Option Int := (endDtEff n).map floorDay

/-- The list of days `pd.date_range(start_date, end_date, freq="D")` the
notice ticks, for a notice whose (filled) timestamps parsed.  A notice with
unparseable bounds gets `[]` here; `buildStressFromNotices` turns that
situation into the error the real code raises. -/
def noticeTicks (n : Notice) : List Int :=
  match startDay n, endDay n with
  | some s, some e => dateRange s e
  | _, _ => []

/-- The claim-side notion: the notice's inclusive validity interval
`[floor(effective), floor(end)]` contains day `d`. -/
def containsDay (n : Notice) (d : Int) : Bool :=
  match startDay n, endDay n with
  | some s, some e => decide (s ≤ d) && decide (d ≤ e)
  | _, _ => false

/-- One row of the daily stress signal (`date`, `notice_active_count`,
`critical_active`, `stress_event`). -/
structure StressRow where
  date : Int
  noticeActiveCount : Nat
  criticalActive : Bool
  stressEvent : Nat
deriving Repr, DecidableEq

/-- `_build_stress_from_notices`.

* empty input → empty output (the early `if notices.empty` return);
* if some notice still has a NaT bound after the two `fillna` fallbacks
  (this happens exactly when `effective_dt` and `posted_dt` are both
  missing), the list comprehension `[pd.date_range(s, e) ...]` raises
  `ValueError: Neither 'start' nor 'end' can be NaT` — modelled by
  `Except.error`;
* otherwise: explode each notice to one `(day, notice)` pair per ticked day
  (a notice whose `end < effective` yields an empty `date_range`; pandas
  `explode` turns that into a NaT row which the later `groupby` drops, so
  it contributes nothing), then group by day — `groupby(sort=True)` emits
  the distinct days in ascending order — aggregating
  `notice_active_count = nunique(notice_id)` and
  `critical_active = max(critical.fillna(False))`, and finally
  `stress_event = int(critical_active)`. -/
def buildStressFromNotices (notices : List Notice) : Except String (List StressRow) :=
  if notices.isEmpty then .ok []
  else if notices.any (fun n => (startDay n).isNone || (endDay n).isNone) then
    .error "ValueError: Neither start nor end can be NaT"
  else
    let pairs := notices.flatMap (fun n => (noticeTicks n).map (fun d => (d, n)))
    let days := sortLe (fun a b => decide (a ≤ b)) (pairs.map Prod.fst).dedup
    .ok (days.map (fun d =>
      let group := pairs.filter (fun p => p.1 = d)
      { date := d
        noticeActiveCount := ((group.map (fun p => p.2.noticeId)).dedup).length
        criticalActive := group.any (fun p => p.2.critical.getD false)
        stressEvent := if group.any (fun p => p.2.critical.getD false) then 1 else 0 }))

/-! ## `_ensure_daily_index`

`src/models/features/build_model_frame.py`, lines 26-31: coerce the date
column, drop rows whose date failed to parse, sort by date, and drop
duplicate dates keeping the last occurrence. -/

/-- The date-coercion/drop step shared by `_ensure_daily_index` and
`_weekly_to_daily_ffill`: `pd.to_datetime(df[date_col], errors="coerce")`
followed by `dropna(subset=[date_col])`. -/
def parseDates {α : Type} (rows : List (Option Int × α)) : List (Int × α) :=
  rows.filterMap (fun r => r.1.map (fun d => (d, r.2)))

/-- `drop_duplicates(subset=[date_col], keep="last")`: keep a row only if no
later row carries the same key. -/
def dropDupKeepLast {α : Type} : List (Int × α) → List (Int × α)
  | [] => []
  | x :: xs =>
    if xs.any (fun y => y.1 = x.1) then dropDupKeepLast xs
    else x :: dropDupKeepLast xs

/-- `_ensure_daily_index` on a frame whose rows are (coerced date, rest). -/
def ensureDailyIndex {α : Type} (rows : List (Option Int × α)) : List (Int × α) :=
  dropDupKeepLast (sortLe (fun a b => decide (a.1 ≤ b.1)) (parseDates rows))

theorem noticeTicks_nodup (n : Notice) : (noticeTicks n).Nodup := by
  unfold noticeTicks
  cases startDay n with
  | none => simp
  | some s =>
    cases endDay n with
    | none => simp
    | some e => exact dateRange_nodup s e

theorem mem_noticeTicks {n : Notice} {d : Int} :
    d ∈ noticeTicks n ↔ containsDay n d = true := by
  unfold noticeTicks containsDay
  cases startDay n with
  | none => simp
  | some s =>
    cases endDay n with
    | none => simp
    | some e => simp [mem_dateRange]

theorem filter_map_pair {l : List Int} (hl : l.Nodup) (n : Notice) (d : Int) :
    (l.map (fun d' => (d', n))).filter (fun p => p.1 = d) =
      if d ∈ l then [(d, n)] else [] := by
  induction l with
  | nil => simp
  | cons a as ih =>
    rcases List.nodup_cons.mp hl with ⟨ha, has⟩
    by_cases hda : a = d
    · subst hda
      have : a ∉ as := ha
      simp [List.filter_cons, ih has, this]
    · simp only [List.map_cons, List.filter_cons]
      have : ¬ (a = d) := hda
      simp only [decide_eq_true_eq]
      rw [if_neg this, ih has]
      by_cases hmem : d ∈ as
      · simp [hmem, List.mem_cons, Ne.symm hda]
      · simp [hmem, List.mem_cons, Ne.symm hda]

/-- The exploded `(day, notice)` pairs that land on day `d` are exactly the
notices whose validity interval contains `d`, each contributing once. -/
theorem pairs_filter_eq (notices : List Notice) (d : Int) :
    ((notices.flatMap (fun n => (noticeTicks n).map (fun d' => (d', n)))).filter
        (fun p => p.1 = d)) =
      (notices.filter (fun n => containsDay n d)).map (fun n => (d, n)) := by
  induction notices with
  | nil => simp
  | cons n ns ih =>
    simp only [List.flatMap_cons, List.filter_append, ih, List.filter_cons]
    rw [filter_map_pair (noticeTicks_nodup n) n d]
    by_cases hc : containsDay n d = true
    · rw [if_pos (mem_noticeTicks.mpr hc)]
      simp [hc]
    · rw [if_neg (fun hm => hc (mem_noticeTicks.mp hm))]
      simp [hc]

/-- CLAIM C1 (interval expander correctness), main theorem.

For a notice set in which every notice has a parseable effective instant
(after the `posted_dt` fallback — the situation in which the code does not
raise), `_build_stress_from_notices` succeeds and:

1. a day is present in the output exactly when some notice's inclusive
   interval `[floor(effective), floor(end)]` contains it;
2. each output day's `notice_active_count` equals the number of distinct
   notice ids whose interval contains that day;
3. a notice with no `end_dt` ticks exactly one day: its effective day. -/
theorem stress_signal_interval_expansion (notices : List Notice)
    (hp : ∀ n ∈ notices, (effDt n).isSome) :
    ∃ rows, buildStressFromNotices notices = .ok rows ∧
      (∀ d : Int, (∃ r ∈ rows, r.date = d) ↔
        ∃ n ∈ notices, containsDay n d = true) ∧
      (∀ r ∈ rows, r.noticeActiveCount =
        (((notices.filter (fun n => containsDay n r.date)).map
            Notice.noticeId).dedup).length) ∧
      (∀ n ∈ notices, n.endDt = none →
        ∀ s, startDay n = some s → noticeTicks n = [s]) := by
  have hsome : ∀ n ∈ notices, (startDay n).isSome ∧ (endDay n).isSome := by
    intro n hn
    have h := hp n hn
    rcases Option.isSome_iff_exists.mp h with ⟨t, ht⟩
    constructor
    · simp [startDay, ht]
    · unfold endDay endDtEff
      cases hE : n.endDt with
      | none => simp [Option.or, ht]
      | some e => simp [Option.or]
  have hsingle : ∀ n ∈ notices, n.endDt = none →
      ∀ s, startDay n = some s → noticeTicks n = [s] := by
    intro n hn hend s hs
    have heq : endDay n = some s := by
      simp only [endDay, endDtEff, hend, Option.or] at *
      simpa [startDay] using hs
    unfold noticeTicks
    rw [hs, heq]
    show dateRange s s = [s]
    unfold dateRange
    have h1 : (s + 1 - s).toNat = 1 := by omega
    rw [h1]
    rfl
  by_cases hemp : notices.isEmpty
  · refine ⟨[], ?_, ?_, ?_, ?_⟩
    · simp [buildStressFromNotices, hemp]
    · have : notices = [] := List.isEmpty_iff.mp hemp
      subst this
      simp
    · simp
    · exact hsingle
  · have hany : notices.any
        (fun n => (startDay n).isNone || (endDay n).isNone) = false := by
      rw [List.any_eq_false]
      intro n hn
      rcases hsome n hn with ⟨h1, h2⟩
      simp [Option.isNone_iff_eq_none] at *
      exact ⟨Option.isSome_iff_ne_none.mp h1, Option.isSome_iff_ne_none.mp h2⟩
    set pairs := notices.flatMap
      (fun n => (noticeTicks n).map (fun d => (d, n))) with hpairs
    set days := sortLe (fun a b => decide (a ≤ b)) (pairs.map Prod.fst).dedup
      with hdays
    have hmem_days : ∀ d : Int, d ∈ days ↔ ∃ n ∈ notices, containsDay n d = true := by
      intro d
      rw [hdays, (sortLe_perm _ _).mem_iff, List.mem_dedup]
      constructor
      · intro h
        rcases List.mem_map.mp h with ⟨p, hpm, hpd⟩
        rcases List.mem_flatMap.mp hpm with ⟨n, hn, hpn⟩
        rcases List.mem_map.mp hpn with ⟨d', hd', hde⟩
        refine ⟨n, hn, ?_⟩
        rw [← mem_noticeTicks]
        have : d' = d := by rw [← hde] at hpd; exact hpd
        rwa [← this]
      · rintro ⟨n, hn, hc⟩
        refine List.mem_map.mpr ⟨(d, n), ?_, rfl⟩
        exact List.mem_flatMap.mpr
          ⟨n, hn, List.mem_map.mpr ⟨d, mem_noticeTicks.mpr hc, rfl⟩⟩
    refine ⟨days.map (fun d =>
      let group := pairs.filter (fun p => p.1 = d)
      { date := d
        noticeActiveCount := ((group.map (fun p => p.2.noticeId)).dedup).length
        criticalActive := group.any (fun p => p.2.critical.getD false)
        stressEvent := if group.any (fun p => p.2.critical.getD false) then 1
          else 0 }), ?_, ?_, ?_, hsingle⟩
    · rw [buildStressFromNotices]
      rw [if_neg (by simp [hemp]), if_neg (by simp [hany])]
    · intro d
      constructor
      · rintro ⟨r, hr, hrd⟩
        rcases List.mem_map.mp hr with ⟨d', hd', hde⟩
        rw [← hrd, ← hde]
        exact (hmem_days d').mp hd'
      · intro h
        refine ⟨_, List.mem_map.mpr ⟨d, (hmem_days d).mpr h, rfl⟩, rfl⟩
    · intro r hr
      rcases List.mem_map.mp hr with ⟨d, hd, hde⟩
      rw [← hde]
      show ((((pairs.filter (fun p => p.1 = d)).map
          (fun p => p.2.noticeId)).dedup).length) = _
      rw [pairs_filter_eq notices d, List.map_map]
      rfl

/-- CLAIM C1, witness: a concrete critical notice effective on day 0 and
ending on day 2 (end instant 172800 s), so the interval expander succeeds
and satisfies the three correctness conjuncts. -/
theorem stress_signal_interval_expansion_witness :
    (∀ n ∈ [Notice.mk 1 none (some 0) (some 172800) (some true)],
      (effDt n).isSome) ∧
    (∃ rows,
      buildStressFromNotices
          [Notice.mk 1 none (some 0) (some 172800) (some true)] = .ok rows ∧
      (∀ d : Int, (∃ r ∈ rows, r.date = d) ↔
        ∃ n ∈ [Notice.mk 1 none (some 0) (some 172800) (some true)],
          containsDay n d = true) ∧
      (∀ r ∈ rows, r.noticeActiveCount =
        ((([Notice.mk 1 none (some 0) (some 172800) (some true)].filter
            (fun n => containsDay n r.date)).map
              Notice.noticeId).dedup).length) ∧
      (∀ n ∈ [Notice.mk 1 none (some 0) (some 172800) (some true)],
        n.endDt = none →
          ∀ s, startDay n = some s → noticeTicks n = [s])) :=
  ⟨by decide,
   stress_signal_interval_expansion
     [Notice.mk 1 none (some 0) (some 172800) (some true)] (by decide)⟩

/-- CLAIM C6: evaluating the interval expander at the failing input — a
single notice whose `posted_dt`, `effective_dt` and `end_dt` are all
unparseable (everything coerced to NaT).  The claim (and the intent of the
`errors="coerce"` calls) says such a notice is excluded and the expansion
never raises; the code instead reaches `pd.date_range(NaT, NaT)`, which
raises `ValueError`. -/
theorem stress_signal_all_unparseable_raises :
    buildStressFromNotices [Notice.mk 7 none none none (some true)] =
      .error "ValueError: Neither start nor end can be NaT" := by
  rfl

/-! ## Frequency Aligner — `_weekly_to_daily_ffill`

`src/models/features/build_model_frame.py`, lines 90-109: coerce the date
column, drop unparsed dates, sort, set the date index, reindex onto the
daily range `[index.min(), index.max()]` and forward-fill. -/

/-- `reindex` cell content for day `d`: the value at an exact-match date,
NaN (`none`) otherwise.  A matched row whose value is itself NaN also gives
`none`, which the subsequent `ffill` then treats like a gap. -/
def lookupVal (w : List (Int × Option ℚ)) (d : Int) : Option ℚ :=
  match w.find? (fun p => decide (p.1 = d)) with
  | some p => p.2
  | none => none

/-- `.ffill()`: carry the last non-null value forward down the frame. -/
def ffillList (carry : Option ℚ) : List (Int × Option ℚ) → List (Int × Option ℚ)
  | [] => []
  | (d, v) :: rest => (d, v.or carry) :: ffillList (v.or carry) rest

/-- `_weekly_to_daily_ffill` on a frame of (coerced date, value) rows.

* empty input is returned unchanged (empty);
* if every date failed to parse, `index.min()` is NaT and
  `pd.date_range(NaT, NaT)` raises;
* if the parsed dates contain duplicates, `reindex` raises
  `ValueError: cannot reindex on an axis with duplicate labels`;
* otherwise reindex onto `pd.date_range(min, max, freq="D")` (for a sorted
  index, min/max are its first and last entries) and forward-fill. -/
def weeklyToDailyFfill (weekly : List (Option Int × Option ℚ)) :
    Except String (List (Int × Option ℚ)) :=
  if weekly.isEmpty then .ok []
  else
    match sortLe (fun a b => decide (a.1 ≤ b.1)) (parseDates weekly) with
    | [] => .error "ValueError: Neither start nor end can be NaT"
    | w0 :: rest =>
      if ((w0 :: rest).map Prod.fst).Nodup then
        let lo := w0.1
        let hi := ((w0 :: rest).map Prod.fst).getLast (by simp)
        .ok (ffillList none
          ((dateRange lo hi).map (fun d => (d, lookupVal (w0 :: rest) d))))
      else .error "ValueError: cannot reindex on an axis with duplicate labels"

/-- Claim-side (spec) definition of strict forward-fill: the value attached
to the most recent observation at or before day `d` that has a non-missing
value, scanning the date-sorted observation list from the back. -/
def lastObsAtOrBefore (w : List (Int × Option ℚ)) (d : Int) : Option ℚ :=
  ((w.filter (fun p => decide (p.1 ≤ d))).reverse).findSome? Prod.snd

theorem findSome?_append_or {α β : Type} (f : α → Option β) (l₁ l₂ : List α) :
    (l₁ ++ l₂).findSome? f = (l₁.findSome? f).or (l₂.findSome? f) := by
  induction l₁ with
  | nil => simp [Option.or]
  | cons a as ih =>
    simp only [List.cons_append, List.findSome?_cons]
    cases f a with
    | none => exact ih
    | some b => simp [Option.or]

theorem lookupVal_eq_none {w : List (Int × Option ℚ)} {d : Int}
    (h : ∀ p ∈ w, p.1 ≠ d) : lookupVal w d = none := by
  unfold lookupVal
  rw [List.find?_eq_none.mpr (by simpa using h)]

theorem lastObs_eq_none_of_lt {w : List (Int × Option ℚ)} {d : Int}
    (h : ∀ p ∈ w, d < p.1) : lastObsAtOrBefore w d = none := by
  unfold lastObsAtOrBefore
  have : w.filter (fun p => decide (p.1 ≤ d)) = [] := by
    rw [List.filter_eq_nil_iff]
    intro p hp
    simpa using (by have := h p hp; omega)
  rw [this]
  rfl

/-- The one-day recurrence of forward-fill: on a date-sorted,
duplicate-free observation list, the last observed value at or before `d`
is the value observed exactly at `d` if that is non-missing, else the last
observed value at or before `d - 1`. -/
theorem findSome?_snd_singleton (k : Int) (v : Option ℚ) :
    List.findSome? Prod.snd [(k, v)] = v := by
  cases v <;> rfl

theorem lastObs_step {w : List (Int × Option ℚ)}
    (hsort : (w.map Prod.fst).Pairwise (· ≤ ·))
    (hnd : (w.map Prod.fst).Nodup) (d : Int) :
    lastObsAtOrBefore w d = (lookupVal w d).or (lastObsAtOrBefore w (d - 1)) := by
  induction w with
  | nil => rfl
  | cons p rest ih =>
    obtain ⟨k, v⟩ := p
    simp only [List.map_cons, List.pairwise_cons] at hsort
    obtain ⟨hle, hsort'⟩ := hsort
    simp only [List.map_cons, List.nodup_cons] at hnd
    obtain ⟨hkn, hnd'⟩ := hnd
    rcases lt_trichotomy k d with hkd | hkd | hkd
    · -- k < d : the head observation is kept in both filters
      have h1 : lastObsAtOrBefore ((k, v) :: rest) d =
          (lastObsAtOrBefore rest d).or v := by
        unfold lastObsAtOrBefore
        rw [List.filter_cons, if_pos (by simpa using le_of_lt hkd),
          List.reverse_cons, findSome?_append_or, findSome?_snd_singleton]
      have h2 : lastObsAtOrBefore ((k, v) :: rest) (d - 1) =
          (lastObsAtOrBefore rest (d - 1)).or v := by
        unfold lastObsAtOrBefore
        rw [List.filter_cons, if_pos (by simp; omega),
          List.reverse_cons, findSome?_append_or, findSome?_snd_singleton]
      have h3 : lookupVal ((k, v) :: rest) d = lookupVal rest d := by
        unfold lookupVal
        rw [List.find?_cons_of_neg _ (by simp; omega)]
      rw [h1, h2, h3, ih hsort' hnd', Option.or_assoc]
    · -- k = d : the head is the observation at `d`; later keys are > d
      subst hkd
      have hgt : ∀ q ∈ rest, k < q.1 := by
        intro q hq
        have h1 := hle q.1 (List.mem_map.mpr ⟨q, hq, rfl⟩)
        have h2 : q.1 ≠ k := fun he =>
          hkn (by rw [← he]; exact List.mem_map.mpr ⟨q, hq, rfl⟩)
        omega
      have h1 : lastObsAtOrBefore ((k, v) :: rest) k = v := by
        unfold lastObsAtOrBefore
        rw [List.filter_cons, if_pos (by simp),
          List.filter_eq_nil_iff.mpr
            (by intro q hq; simpa using (by have := hgt q hq; omega))]
        cases v <;> rfl
      have h2 : lastObsAtOrBefore ((k, v) :: rest) (k - 1) = none := by
        refine lastObs_eq_none_of_lt ?_
        intro q hq
        rcases List.mem_cons.mp hq with he | hm
        · rw [he]; omega
        · have := hgt q hm; omega
      have h3 : lookupVal ((k, v) :: rest) k = v := by
        unfold lookupVal
        rw [List.find?_cons_of_pos _ (by simp)]
      rw [h1, h2, h3]
      cases v <;> rfl
    · -- d < k : every observation is after `d`
      have hgt : ∀ q ∈ (k, v) :: rest, d < q.1 := by
        intro q hq
        rcases List.mem_cons.mp hq with he | hm
        · rw [he]; omega
        · have := hle q.1 (List.mem_map.mpr ⟨q, hm, rfl⟩); omega
      rw [lastObs_eq_none_of_lt hgt,
        lastObs_eq_none_of_lt (by intro q hq; have := hgt q hq; omega),
        lookupVal_eq_none (by intro q hq; have := hgt q hq; omega)]
      rfl

theorem ffillList_map_fst (carry : Option ℚ) (l : List (Int × Option ℚ)) :
    (ffillList carry l).map Prod.fst = l.map Prod.fst := by
  induction l generalizing carry with
  | nil => rfl
  | cons p rest ih => obtain ⟨d, v⟩ := p; simp [ffillList, ih]

/-- Forward-filling the reindexed consecutive days `[s, s+n)` reproduces,
at every day, the last observation at or before that day — provided the
incoming carry is what forward-fill would have produced for day `s - 1`. -/
theorem ffill_range_spec {w : List (Int × Option ℚ)}
    (hsort : (w.map Prod.fst).Pairwise (· ≤ ·))
    (hnd : (w.map Prod.fst).Nodup) :
    ∀ (n : Nat) (s : Int) (carry : Option ℚ),
      carry = lastObsAtOrBefore w (s - 1) →
      ∀ d v, (d, v) ∈ ffillList carry
          ((rangeFrom s n).map (fun d => (d, lookupVal w d))) →
        v = lastObsAtOrBefore w d := by
  intro n
  induction n with
  | zero => intro s carry _ d v h; simp [rangeFrom, ffillList] at h
  | succ m ih =>
    intro s carry hcarry d v h
    simp only [rangeFrom, List.map_cons, ffillList, List.mem_cons] at h
    have hs : (lookupVal w s).or carry = lastObsAtOrBefore w s := by
      rw [hcarry, ← lastObs_step hsort hnd]
    rcases h with he | hm
    · rw [Prod.mk.injEq] at he
      obtain ⟨he1, he2⟩ := he
      subst he1
      rw [he2]
      exact hs
    · exact ih (s + 1) ((lookupVal w s).or carry)
        (by rw [hs]; congr 1; omega) d v hm

theorem map_fst_pairing {β : Type} (f : Int → β) (l : List Int) :
    (l.map (fun d => (d, f d))).map Prod.fst = l := by
  induction l with
  | nil => rfl
  | cons a as ih => simp [ih]

theorem le_getLast_of_pairwise {l : List Int} (h : l.Pairwise (· ≤ ·))
    (hne : l ≠ []) : ∀ k ∈ l, k ≤ l.getLast hne := by
  induction l with
  | nil => simp at hne
  | cons a as ih =>
    rcases List.pairwise_cons.mp h with ⟨ha, has⟩
    intro k hk
    cases as with
    | nil =>
      simp only [List.mem_singleton] at hk
      simp [hk]
    | cons b bs =>
      rw [List.getLast_cons (by simp)]
      rcases List.mem_cons.mp hk with he | hm
      · subst he
        exact ha _ (List.getLast_mem _)
      · exact ih has (by simp) k hm

/-- CLAIM C3 (frequency aligner), main theorem.

For any weekly series whose parseable dates are pairwise distinct (what
"weekly cadence" means — duplicate dates make `reindex` raise instead):

* empty input returns empty output;
* when at least one date parses, the aligner succeeds and returns a daily
  series whose dates are exactly `[min(date), max(date)]` — in particular
  no day earlier than the first observation — and in which every day
  carries the most recently observed non-missing value at or before it. -/
theorem weekly_ffill_correct (weekly : List (Option Int × Option ℚ))
    (hnd : ((parseDates weekly).map Prod.fst).Nodup) :
    (weekly = [] → weeklyToDailyFfill weekly = .ok []) ∧
    (parseDates weekly ≠ [] →
      ∃ out lo hi, weeklyToDailyFfill weekly = .ok out ∧
        lo ∈ (parseDates weekly).map Prod.fst ∧
        (∀ k ∈ (parseDates weekly).map Prod.fst, lo ≤ k) ∧
        hi ∈ (parseDates weekly).map Prod.fst ∧
        (∀ k ∈ (parseDates weekly).map Prod.fst, k ≤ hi) ∧
        out.map Prod.fst = dateRange lo hi ∧
        (∀ d v, (d, v) ∈ out →
          v = lastObsAtOrBefore
            (sortLe (fun a b => decide (a.1 ≤ b.1)) (parseDates weekly)) d)) := by
  constructor
  · intro h
    subst h
    rfl
  · intro hne
    set w := sortLe (fun a b => decide (a.1 ≤ b.1)) (parseDates weekly) with hwdef
    have hperm : List.Perm w (parseDates weekly) := sortLe_perm _ _
    have hsorted : w.Pairwise (fun a b => decide (a.1 ≤ b.1) = true) :=
      sortLe_sorted (fun a b => by by_cases h : a.1 ≤ b.1 <;> simp [h]; omega)
        (fun a b c h1 h2 => by simp at *; omega) _
    have hpairk : (w.map Prod.fst).Pairwise (· ≤ ·) := by
      rw [List.pairwise_map]
      exact hsorted.imp (fun h => by simpa using h)
    have hndw : (w.map Prod.fst).Nodup :=
      (hperm.map Prod.fst).nodup_iff.mpr hnd
    have hwne : w ≠ [] := fun h => hne (List.Perm.nil_eq (h ▸ hperm)).symm
    obtain ⟨w0, rest, hw⟩ := List.exists_cons_of_ne_nil hwne
    have hweekne : ¬ weekly.isEmpty := by
      intro h
      rw [List.isEmpty_iff.mp h] at hne
      exact hne rfl
    have heval : weeklyToDailyFfill weekly =
        .ok (ffillList none
          ((dateRange w0.1 (((w0 :: rest).map Prod.fst).getLast (by simp))).map
            (fun d => (d, lookupVal (w0 :: rest) d)))) := by
      unfold weeklyToDailyFfill
      rw [if_neg hweekne, ← hwdef, hw]
      have hnd2 : ((w0 :: rest).map Prod.fst).Nodup := by
        rw [← hw]
        exact hndw
      simp only [hnd2, if_true]
    set hi := ((w0 :: rest).map Prod.fst).getLast (by simp) with hhidef
    have hmemw : ∀ k, k ∈ (parseDates weekly).map Prod.fst ↔ k ∈ w.map Prod.fst :=
      fun k => ((hperm.map Prod.fst).mem_iff).symm
    have hlomem : w0.1 ∈ (parseDates weekly).map Prod.fst := by
      rw [hmemw, hw]
      simp
    have hlomin : ∀ k ∈ (parseDates weekly).map Prod.fst, w0.1 ≤ k := by
      intro k hk
      rw [hmemw, hw] at hk
      rcases List.mem_cons.mp hk with he | hm
      · omega
      · rw [hw] at hpairk
        exact (List.pairwise_cons.mp hpairk).1 k hm
    have hhimem : hi ∈ (parseDates weekly).map Prod.fst := by
      rw [hmemw, hw, hhidef]
      exact List.getLast_mem _
    have hhimax : ∀ k ∈ (parseDates weekly).map Prod.fst, k ≤ hi := by
      intro k hk
      rw [hmemw, hw] at hk
      rw [hw] at hpairk
      exact le_getLast_of_pairwise hpairk (by simp) k hk
    refine ⟨_, w0.1, hi, heval, hlomem, hlomin, hhimem, hhimax, ?_, ?_⟩
    · rw [ffillList_map_fst]
      exact map_fst_pairing _ _
    · intro d v hdv
      have hcarry : (none : Option ℚ) = lastObsAtOrBefore w (w0.1 - 1) := by
        refine (lastObs_eq_none_of_lt ?_).symm
        intro p hp
        have hpm : p.1 ∈ (parseDates weekly).map Prod.fst := by
          rw [hmemw]
          exact List.mem_map.mpr ⟨p, hp, rfl⟩
        have := hlomin p.1 hpm
        omega
      rw [hw] at hpairk hndw hcarry
      unfold dateRange at hdv
      have hval := ffill_range_spec hpairk hndw _ w0.1 none hcarry d v hdv
      rw [hw]
      exact hval

/-- CLAIM C3, witness: the spec's weekly-storage scenario — observations
`(day 0, 100)` and `(day 7, 90)` — has distinct dates and a non-empty
parse, so the aligner's output covers days 0..7 with forward-filled
values. -/
theorem weekly_ffill_correct_witness :
    ((parseDates [((some 0 : Option Int), (some 100 : Option ℚ)),
        (some 7, some 90)]).map Prod.fst).Nodup ∧
    parseDates [((some 0 : Option Int), (some 100 : Option ℚ)),
        (some 7, some 90)] ≠ [] ∧
    (∃ out lo hi,
      weeklyToDailyFfill [((some 0 : Option Int), (some 100 : Option ℚ)),
          (some 7, some 90)] = .ok out ∧
      lo ∈ (parseDates [((some 0 : Option Int), (some 100 : Option ℚ)),
          (some 7, some 90)]).map Prod.fst ∧
      (∀ k ∈ (parseDates [((some 0 : Option Int), (some 100 : Option ℚ)),
          (some 7, some 90)]).map Prod.fst, lo ≤ k) ∧
      hi ∈ (parseDates [((some 0 : Option Int), (some 100 : Option ℚ)),
          (some 7, some 90)]).map Prod.fst ∧
      (∀ k ∈ (parseDates [((some 0 : Option Int), (some 100 : Option ℚ)),
          (some 7, some 90)]).map Prod.fst, k ≤ hi) ∧
      out.map Prod.fst = dateRange lo hi ∧
      (∀ d v, (d, v) ∈ out →
        v = lastObsAtOrBefore
          (sortLe (fun a b => decide (a.1 ≤ b.1))
            (parseDates [((some 0 : Option Int), (some 100 : Option ℚ)),
              (some 7, some 90)])) d)) :=
  ⟨by decide, by decide,
   (weekly_ffill_correct [(some 0, some 100), (some 7, some 90)]
      (by decide)).2 (by decide)⟩

/-! ## Panel Builder — `build_model_frame`

`src/models/features/build_model_frame.py`, lines 112-224.  The five loader
calls are external collaborators; the embedding takes the loaded frames as
arguments.  The weather frame's non-date columns (`pipeline`, `region_id`,
`hdd_mean`, `hdd_median`, `n_stations_used`, `source`) travel through the
pipeline untouched and are modelled by an opaque type parameter `W`.
The derived `hh_log` / `hh_ret` columns (lines 216-219) add columns to the
final frame but touch no existing row, date or claimed column; they involve
the irrational `np.log` and are not part of any verified claim, so the
embedded row omits them. -/

/-- `pd.DataFrame.merge(..., on="date", how="left")`: one output row per
matching right row, in left order (pandas preserves the left frame's key
order for a left join), with an unmatched left row kept once with NaN
(`none`) for the right columns. -/
def leftMergeOpt {α β : Type} (l : List (Int × α)) (r : List (Int × β)) :
    List (Int × α × Option β) :=
  l.flatMap (fun a =>
    match r.filter (fun b => b.1 = a.1) with
    | [] => [(a.1, a.2, none)]
    | ms => ms.map (fun m => (a.1, a.2, some m.2)))

/-- Median with linear interpolation (`np.median` / pandas `median` on the
sorted values): middle element for odd length, mean of the two middle
elements for even length. -/
def medianQ (xs : List ℚ) : Option ℚ :=
  let s := sortLe (fun a b => decide (a ≤ b)) xs
  if s.length = 0 then none
  else if s.length % 2 = 1 then some (s.getD (s.length / 2) 0)
  else some ((s.getD (s.length / 2 - 1) 0 + s.getD (s.length / 2) 0) / 2)

/-- The capacity feature block of `build_model_frame` (lines 169-184):
coerce `Post_Date_dt` and `All_Qty_Avail`, drop rows with unparsed dates,
group by the floored date (keys ascending) and take the median of the
non-NaN quantities (pandas `median` skips NaN; an all-NaN group is NaN).
Input rows are (coerced posting instant, coerced quantity); an empty
capacity frame (or one lacking the two columns) contributes the empty
placeholder frame. -/
def buildCapFeat (cap : List (Option Int × Option ℚ)) : List (Int × Option ℚ) :=
  if cap.isEmpty then []
  else
    let t := cap.filterMap (fun r => r.1.map (fun d => (floorDay d, r.2)))
    let days := sortLe (fun a b => decide (a ≤ b)) (t.map Prod.fst).dedup
    days.map (fun d =>
      (d, medianQ ((t.filter (fun p => p.1 = d)).filterMap Prod.snd)))

/-- One row of the final panel.  `hh` / `workingGas` / `capMedian` are
nullable (left-join misses and NaN both `none`); the three stress columns
are `fillna(0)`-ed and the two flags `astype(int)`-ed, so they are total. -/
structure PanelRow (W : Type) where
  date : Int
  weather : W
  hh : Option ℚ
  workingGas : Option ℚ
  noticeActiveCount : ℚ
  criticalActive : Int
  stressEvent : Int
  capMedian : Option ℚ
deriving Repr, DecidableEq

/-- The post-merge fill/cast step of `build_model_frame` (lines 207-212)
applied to one merged row: `fillna(0)` on the three stress columns, then
`astype(int)` on `critical_active` and `stress_event` (booleans cast to
0/1), while `all_qty_avail_median` is left as merged. -/
def assemblePanelRow {W : Type}
    (x : Int × (((W × Option (Option ℚ)) × Option (Option ℚ)) ×
      Option (Nat × Bool × Nat)) × Option (Option ℚ)) : PanelRow W :=
  { date := x.1
    weather := x.2.1.1.1.1
    hh := x.2.1.1.1.2.join
    workingGas := x.2.1.1.2.join
    noticeActiveCount := match x.2.1.2 with
      | some st => (st.1 : ℚ)
      | none => 0
    criticalActive := match x.2.1.2 with
      | some st => if st.2.1 then 1 else 0
      | none => 0
    stressEvent := match x.2.1.2 with
      | some st => (st.2.2 : Int)
      | none => 0
    capMedian := x.2.2.join }

/-- `build_model_frame`, taking the five loaded frames as inputs:

* `weather`, `hh` go through `_ensure_daily_index`;
* `storageW` through `_weekly_to_daily_ffill` (its error propagates);
* `notices` through `_build_stress_from_notices` (its error propagates);
* `cap` through the capacity-median block;
* the base calendar is the weather frame; every other frame is
  left-joined on exact date; stress columns are zero-filled; and the frame
  is finally sorted by date.  (The code skips the storage merge when
  `storage_d` is empty only because the empty frame lacks the value column;
  merging the empty frame yields the same all-`none` column.) -/
def buildModelFrame {W : Type}
    (weather : List (Option Int × W))
    (hh : List (Option Int × Option ℚ))
    (storageW : List (Option Int × Option ℚ))
    (notices : List Notice)
    (cap : List (Option Int × Option ℚ)) :
    Except String (List (PanelRow W)) := do
  let base := ensureDailyIndex weather
  let hhD := ensureDailyIndex hh
  let storageD ← weeklyToDailyFfill storageW
  let stressD ← buildStressFromNotices notices
  let capFeat := buildCapFeat cap
  let m1 := leftMergeOpt base hhD
  let m2 := leftMergeOpt m1 storageD
  let m3 := leftMergeOpt m2
    (stressD.map (fun r => (r.date, (r.noticeActiveCount, r.criticalActive,
      r.stressEvent))))
  let m4 := leftMergeOpt m3 capFeat
  pure (sortLe (fun a b => decide (a.date ≤ b.date))
    (m4.map assemblePanelRow))

theorem dropDupKeepLast_sublist {α : Type} (l : List (Int × α)) :
    (dropDupKeepLast l).Sublist l := by
  induction l with
  | nil => simp [dropDupKeepLast]
  | cons x xs ih =>
    unfold dropDupKeepLast
    by_cases h : xs.any (fun y => y.1 = x.1)
    · simp only [h, if_true]
      exact ih.cons x
    · simp only [h, Bool.false_eq_true, if_false]
      exact ih.cons₂ x

theorem dropDupKeepLast_keys_nodup {α : Type} (l : List (Int × α)) :
    ((dropDupKeepLast l).map Prod.fst).Nodup := by
  induction l with
  | nil => simp [dropDupKeepLast]
  | cons x xs ih =>
    unfold dropDupKeepLast
    by_cases h : xs.any (fun y => y.1 = x.1)
    · simp only [h, if_true]
      exact ih
    · simp only [h, Bool.false_eq_true, if_false, List.map_cons, List.nodup_cons]
      refine ⟨fun hmem => ?_, ih⟩
      rcases List.mem_map.mp hmem with ⟨y, hy, hyx⟩
      have hy' : y ∈ xs := (dropDupKeepLast_sublist xs).subset hy
      exact h (List.any_eq_true.mpr ⟨y, hy', by simpa using hyx⟩)

theorem ensureDailyIndex_keys_nodup {α : Type} (rows : List (Option Int × α)) :
    ((ensureDailyIndex rows).map Prod.fst).Nodup :=
  dropDupKeepLast_keys_nodup _

theorem filter_key_eq_nil {β : Type} {r : List (Int × β)} {k : Int}
    (h : k ∉ r.map Prod.fst) : r.filter (fun b => b.1 = k) = [] := by
  rw [List.filter_eq_nil_iff]
  intro b hb
  simp only [decide_eq_true_eq]
  intro he
  exact h (List.mem_map.mpr ⟨b, hb, he⟩)

theorem filter_key_of_nodup {β : Type} {r : List (Int × β)}
    (hr : (r.map Prod.fst).Nodup) (k : Int) :
    r.filter (fun b => b.1 = k) = [] ∨
      ∃ v, r.filter (fun b => b.1 = k) = [(k, v)] := by
  induction r with
  | nil => exact Or.inl rfl
  | cons b bs ih =>
    simp only [List.map_cons, List.nodup_cons] at hr
    obtain ⟨hb, hbs⟩ := hr
    by_cases hk : b.1 = k
    · refine Or.inr ⟨b.2, ?_⟩
      rw [List.filter_cons, if_pos (by simpa using hk)]
      rw [filter_key_eq_nil (by rw [← hk]; exact hb)]
      rw [← hk]
    · rw [List.filter_cons, if_neg (by simpa using hk)]
      exact ih hbs

theorem leftMergeOpt_map_fst {α β : Type} (l : List (Int × α))
    {r : List (Int × β)} (hr : (r.map Prod.fst).Nodup) :
    (leftMergeOpt l r).map Prod.fst = l.map Prod.fst := by
  induction l with
  | nil => rfl
  | cons a as ih =>
    unfold leftMergeOpt
    simp only [List.flatMap_cons, List.map_append]
    rcases filter_key_of_nodup hr a.1 with h | ⟨v, h⟩
    · rw [h]
      simpa using ih
    · rw [h]
      simpa using ih

theorem mem_leftMergeOpt {α β : Type} {l : List (Int × α)}
    {r : List (Int × β)} {x : Int × α × Option β}
    (hx : x ∈ leftMergeOpt l r) :
    (∃ a ∈ l, x.1 = a.1 ∧ x.2.1 = a.2) ∧
      (x.2.2 = none ∨ ∃ v, x.2.2 = some v ∧ (x.1, v) ∈ r) := by
  unfold leftMergeOpt at hx
  rcases List.mem_flatMap.mp hx with ⟨a, ha, hxa⟩
  rcases hfil : r.filter (fun b => b.1 = a.1) with _ | ⟨m, ms⟩
  · rw [hfil] at hxa
    simp only [List.mem_singleton] at hxa
    subst hxa
    exact ⟨⟨a, ha, rfl, rfl⟩, Or.inl rfl⟩
  · rw [hfil] at hxa
    rcases List.mem_map.mp hxa with ⟨m', hm', hme⟩
    have hm'f : m' ∈ r.filter (fun b => b.1 = a.1) := by
      rw [hfil]
      exact hm'
    have hm'r : m' ∈ r := List.mem_of_mem_filter hm'f
    have hm'k : m'.1 = a.1 := by
      have := List.of_mem_filter hm'f
      simpa using this
    subst hme
    refine ⟨⟨a, ha, rfl, rfl⟩, Or.inr ⟨m'.2, rfl, ?_⟩⟩
    show (a.1, m'.2) ∈ r
    rw [← hm'k]
    exact hm'r

theorem pairwise_lt_of_le_nodup {l : List Int}
    (h1 : l.Pairwise (· ≤ ·)) (h2 : l.Nodup) : l.Pairwise (· < ·) :=
  (h1.and h2).imp (fun h => lt_of_le_of_ne h.1 h.2)

theorem buildStress_keys_nodup {notices : List Notice} {rows : List StressRow}
    (h : buildStressFromNotices notices = .ok rows) :
    (rows.map StressRow.date).Nodup := by
  unfold buildStressFromNotices at h
  by_cases hemp : notices.isEmpty
  · rw [if_pos hemp] at h
    cases h
    simp
  · rw [if_neg hemp] at h
    by_cases hany : notices.any
        (fun n => (startDay n).isNone || (endDay n).isNone)
    · rw [if_pos hany] at h
      cases h
    · rw [if_neg hany] at h
      cases h
      have hmd : ∀ (l : List Int) (f : Int → StressRow),
          (∀ d, (f d).date = d) → (l.map f).map StressRow.date = l := by
        intro l f hf
        induction l with
        | nil => rfl
        | cons a as ih => simp [hf, ih]
      rw [hmd _ _ (fun d => rfl)]
      exact ((sortLe_perm _ _).nodup_iff).mpr (List.nodup_dedup _)

theorem weeklyFfill_keys_nodup {weekly : List (Option Int × Option ℚ)}
    {out : List (Int × Option ℚ)}
    (h : weeklyToDailyFfill weekly = .ok out) :
    (out.map Prod.fst).Nodup := by
  unfold weeklyToDailyFfill at h
  split at h
  · cases h
    simp
  · split at h
    · cases h
    · split at h
      · cases h
        rw [ffillList_map_fst, map_fst_pairing]
        exact dateRange_nodup _ _
      · cases h

theorem capFeat_keys_nodup (cap : List (Option Int × Option ℚ)) :
    ((buildCapFeat cap).map Prod.fst).Nodup := by
  unfold buildCapFeat
  by_cases hemp : cap.isEmpty
  · rw [if_pos hemp]
    simp
  · rw [if_neg hemp]
    rw [map_fst_pairing]
    exact ((sortLe_perm _ _).nodup_iff).mpr (List.nodup_dedup _)

/-- CLAIM C2 (panel date uniqueness and ordering), main theorem.

For every combination of input frames — hence for every permutation of the
rows inside each frame, since all row lists are universally quantified —
a successfully built panel has strictly ascending dates (in particular no
two rows share a date). -/
theorem panel_dates_strictly_ascending {W : Type}
    (weather : List (Option Int × W)) (hh : List (Option Int × Option ℚ))
    (storageW : List (Option Int × Option ℚ)) (notices : List Notice)
    (cap : List (Option Int × Option ℚ)) (df : List (PanelRow W))
    (hok : buildModelFrame weather hh storageW notices cap = .ok df) :
    (df.map PanelRow.date).Pairwise (· < ·) := by
  unfold buildModelFrame at hok
  rcases hst : weeklyToDailyFfill storageW with e | storageD
  · rw [hst] at hok
    cases hok
  rcases hsn : buildStressFromNotices notices with e | stressD
  · rw [hst, hsn] at hok
    cases hok
  rw [hst, hsn] at hok
  simp only [Except.bind, pure, Except.pure] at hok
  cases hok
  set m4 := leftMergeOpt (leftMergeOpt (leftMergeOpt
    (leftMergeOpt (ensureDailyIndex weather) (ensureDailyIndex hh)) storageD)
    (stressD.map (fun r => (r.date, (r.noticeActiveCount, r.criticalActive,
      r.stressEvent)))) ) (buildCapFeat cap) with hm4
  have hkeys : m4.map Prod.fst = (ensureDailyIndex weather).map Prod.fst := by
    rw [hm4]
    rw [leftMergeOpt_map_fst _ (capFeat_keys_nodup cap)]
    rw [leftMergeOpt_map_fst _ (by
      rw [List.map_map]
      rw [show (Prod.fst ∘ fun (r : StressRow) => (r.date,
        (r.noticeActiveCount, r.criticalActive, r.stressEvent))) =
        StressRow.date from rfl]
      exact buildStress_keys_nodup hsn)]
    rw [leftMergeOpt_map_fst _ (weeklyFfill_keys_nodup hst)]
    rw [leftMergeOpt_map_fst _ (ensureDailyIndex_keys_nodup hh)]
  have hdates_eq : ∀ (m : List (Int × (((W × Option (Option ℚ)) ×
      Option (Option ℚ)) × Option (Nat × Bool × Nat)) × Option (Option ℚ))),
      (m.map assemblePanelRow).map PanelRow.date = m.map Prod.fst := by
    intro m
    rw [List.map_map]
    rfl
  have hnodup : ((sortLe (fun a b => decide (a.date ≤ b.date))
      (m4.map assemblePanelRow)).map PanelRow.date).Nodup := by
    refine (((sortLe_perm _ _).map PanelRow.date).nodup_iff).mpr ?_
    rw [hdates_eq, hkeys]
    exact ensureDailyIndex_keys_nodup weather
  have hsorted : ((sortLe (fun a b => decide (a.date ≤ b.date))
      (m4.map assemblePanelRow)).map PanelRow.date).Pairwise (· ≤ ·) := by
    rw [List.pairwise_map]
    exact (sortLe_sorted (fun a b => by
        by_cases h : a.date ≤ b.date <;> simp [h]; omega)
      (fun a b c h1 h2 => by simp at *; omega) _).imp
      (fun h => by simpa using h)
  exact pairwise_lt_of_le_nodup hsorted hnodup

/-- Concrete frames used to witness the panel-builder theorems. -/
def c2PanelOut : List (PanelRow Int) :=
  [{ date := 0, weather := 6, hh := none, workingGas := none,
     noticeActiveCount := 0, criticalActive := 0, stressEvent := 0,
     capMedian := none },
   { date := 1, weather := 8, hh := none, workingGas := none,
     noticeActiveCount := 0, criticalActive := 0, stressEvent := 0,
     capMedian := none },
   { date := 2, weather := 7, hh := none, workingGas := none,
     noticeActiveCount := 0, criticalActive := 0, stressEvent := 0,
     capMedian := none }]

/-- CLAIM C2, witness: a weather frame fed in out of order and with a
duplicated date still yields a panel with strictly ascending dates. -/
theorem panel_dates_strictly_ascending_witness :
    buildModelFrame
        [((some 2 : Option Int), (5 : Int)), (some 0, 6), (some 2, 7),
          (some 1, 8)] [] [] [] [] = .ok c2PanelOut ∧
    (c2PanelOut.map PanelRow.date).Pairwise (· < ·) :=
  ⟨by rfl,
   panel_dates_strictly_ascending
     [((some 2 : Option Int), (5 : Int)), (some 0, 6), (some 2, 7),
       (some 1, 8)] [] [] [] [] c2PanelOut (by rfl)⟩

/-- CLAIM C4, counterexample: a base-calendar date (day 0) with no matching
capacity row keeps `all_qty_avail_median` as null (`none`), not zero —
only the three stress columns are zero-filled, refuting the claim that the
capacity aggregate column is also filled with zero. -/
theorem panel_capacity_left_null_counterexample :
    buildModelFrame [((some 0 : Option Int), (5 : Int))] [] [] []
        ([] : List (Option Int × Option ℚ)) =
      .ok [{ date := 0, weather := 5, hh := none, workingGas := none,
             noticeActiveCount := 0, criticalActive := 0, stressEvent := 0,
             capMedian := none }] ∧
    (none : Option ℚ) ≠ some 0 :=
  ⟨by rfl, by decide⟩

/-- CLAIM C4 as amended, main theorem.

In the built panel, a date with no matching stress-signal row has its three
stress columns (`notice_active_count`, `critical_active`, `stress_event`)
zero-filled; a date with no matching capacity-aggregate row keeps
`all_qty_avail_median` null (the code's `fillna(0)` loop covers only the
stress columns). -/
theorem panel_zero_fill_amended {W : Type}
    (weather : List (Option Int × W)) (hh : List (Option Int × Option ℚ))
    (storageW : List (Option Int × Option ℚ)) (notices : List Notice)
    (cap : List (Option Int × Option ℚ)) (stressD : List StressRow)
    (df : List (PanelRow W))
    (hsn : buildStressFromNotices notices = .ok stressD)
    (hok : buildModelFrame weather hh storageW notices cap = .ok df) :
    ∀ row ∈ df,
      (row.date ∉ stressD.map StressRow.date →
        row.noticeActiveCount = 0 ∧ row.criticalActive = 0 ∧
          row.stressEvent = 0) ∧
      (row.date ∉ (buildCapFeat cap).map Prod.fst →
        row.capMedian = none) := by
  unfold buildModelFrame at hok
  rcases hst : weeklyToDailyFfill storageW with e | storageD
  · rw [hst] at hok
    cases hok
  rw [hst, hsn] at hok
  simp only [Except.bind, pure, Except.pure] at hok
  cases hok
  intro row hrow
  have hrow' := (sortLe_perm _ _).mem_iff.mp hrow
  rcases List.mem_map.mp hrow' with ⟨x, hx, hxe⟩
  have hx' := mem_leftMergeOpt hx
  obtain ⟨⟨y, hy, hx1, hx21⟩, hcap⟩ := hx'
  have hy' := (mem_leftMergeOpt hy).2
  have hdate : row.date = x.1 := by
    rw [← hxe]
    rfl
  constructor
  · intro hnot
    have hstress : y.2.2 = none := by
      rcases hy' with h | ⟨v, hv, hvm⟩
      · exact h
      · exfalso
        apply hnot
        refine List.mem_map.mpr ?_
        rcases List.mem_map.mp hvm with ⟨r, hr, hre⟩
        refine ⟨r, hr, ?_⟩
        have : r.date = y.1 := congrArg Prod.fst hre
        rw [this, ← hx1, ← hdate]
    have hcomp : x.2.1.2 = none := by
      rw [hx21]
      exact hstress
    rw [← hxe]
    unfold assemblePanelRow
    rw [hcomp]
    exact ⟨rfl, rfl, rfl⟩
  · intro hnot
    rcases hcap with h | ⟨v, hv, hvm⟩
    · rw [← hxe]
      unfold assemblePanelRow
      simp only [h]
      rfl
    · exfalso
      apply hnot
      rw [hdate]
      exact List.mem_map.mpr ⟨(x.1, v), hvm, rfl⟩

def c4Notices : List Notice := [Notice.mk 1 none (some 0) none (some true)]

def c4Stress : List StressRow :=
  [{ date := 0, noticeActiveCount := 1, criticalActive := true,
     stressEvent := 1 }]

def c4PanelOut : List (PanelRow Int) :=
  [{ date := 0, weather := 5, hh := some 7, workingGas := none,
     noticeActiveCount := 1, criticalActive := 1, stressEvent := 1,
     capMedian := none },
   { date := 1, weather := 6, hh := none, workingGas := none,
     noticeActiveCount := 0, criticalActive := 0, stressEvent := 0,
     capMedian := none }]

/-- CLAIM C4 as amended, witness: a panel over days 0 and 1 with one
critical notice on day 0 and an empty capacity frame — day 1 has its
stress columns zero-filled and both days keep a null capacity median. -/
theorem panel_zero_fill_amended_witness :
    buildStressFromNotices c4Notices = .ok c4Stress ∧
    buildModelFrame [((some 0 : Option Int), (5 : Int)), (some 1, 6)]
        [((some 0 : Option Int), some (7 : ℚ))] [] c4Notices
        ([] : List (Option Int × Option ℚ)) = .ok c4PanelOut ∧
    (∀ row ∈ c4PanelOut,
      (row.date ∉ c4Stress.map StressRow.date →
        row.noticeActiveCount = 0 ∧ row.criticalActive = 0 ∧
          row.stressEvent = 0) ∧
      (row.date ∉ (buildCapFeat
            ([] : List (Option Int × Option ℚ))).map Prod.fst →
        row.capMedian = none)) :=
  ⟨by rfl, by rfl,
   panel_zero_fill_amended [((some 0 : Option Int), (5 : Int)), (some 1, 6)]
     [((some 0 : Option Int), some (7 : ℚ))] [] c4Notices [] c4Stress
     c4PanelOut (by rfl) (by rfl)⟩

/-! ## `derive_forecast_inputs`

`src/models/features/derive_forecast_inputs.py`.  The input frame columns
the function reads (`date`, `stress_event`, `hh_ret`, `hdd_median`,
`working_gas_bcf`) are modelled as one row type; float cells may be NaN
(`none`).  (A frame missing one of these columns would raise `KeyError`;
no claim concerns that path, and the row type makes the columns total.) -/

structure ForecastPanelRow where
  date : Int
  stressEvent : Option ℚ
  hhRet : Option ℚ
  hddMedian : Option ℚ
  workingGas : Option ℚ
deriving Repr, DecidableEq

/-- The returned `x_*` mapping; each value is a float that may be NaN. -/
structure ForecastInputs where
  op : Option ℚ
  persist : Option ℚ
  hdd : Option ℚ
  storage : Option ℚ
deriving Repr, DecidableEq

/-- `series.rolling(k).mean().iloc[-1]` with the default
`min_periods = k`: NaN unless the series has at least `k` entries and the
last `k` are all non-NaN, in which case it is their mean. -/
def rollingMeanLast (k : Nat) (xs : List (Option ℚ)) : Option ℚ :=
  if xs.length < k then none
  else
    let w := xs.drop (xs.length - k)
    if w.all Option.isSome then some ((w.filterMap id).sum / (k : ℚ))
    else none

/-- `derive_forecast_inputs`: sort by date, raise when fewer than 2 rows,
else return the rolling/last-row features (`float(NaN)` is NaN, so a too-
short frame yields NaN rolling features rather than an error). -/
def deriveForecastInputs (df : List ForecastPanelRow) :
    Except String ForecastInputs :=
  let d := sortLe (fun a b => decide (a.date ≤ b.date)) df
  if d.length < 2 then .error "Not enough data to derive forecast inputs"
  else
    .ok { op := rollingMeanLast 3 (d.map (fun r => r.stressEvent))
          persist := rollingMeanLast 3
            (d.map (fun r => r.hhRet.map (fun q => |q|)))
          hdd := d.getLast?.bind ForecastPanelRow.hddMedian
          storage := match d.getLast?.bind ForecastPanelRow.workingGas,
              rollingMeanLast (365 * 3)
                (d.map (fun r => r.workingGas)) with
            | some a, some b => some (a - b)
            | _, _ => none }

def c5TwoRows : List ForecastPanelRow :=
  [{ date := 0, stressEvent := some 0, hhRet := some 1,
     hddMedian := some 3, workingGas := some 100 },
   { date := 1, stressEvent := some 1, hhRet := some 2,
     hddMedian := some 4, workingGas := some 90 }]

/-- CLAIM C5, counterexample: a 2-row panel — fewer rows than the 3-day
rolling windows need — does NOT raise the "not enough data" failure; it
returns NaN (`none`) rolling features. -/
theorem derive_forecast_inputs_two_rows_no_raise :
    deriveForecastInputs c5TwoRows =
      .ok { op := none, persist := none, hdd := some 4, storage := none } := by
  rfl

/-- CLAIM C5 as amended, main theorem.

`derive_forecast_inputs` raises its named "not enough data" failure exactly
for panels with fewer than 2 rows; any panel with at least 2 rows returns
successfully, and a panel with exactly 2 rows returns NaN (`none`) for
every rolling-window feature (`op`, `persist`, `storage`) instead of
raising. -/
theorem derive_forecast_inputs_guard (df : List ForecastPanelRow) :
    (df.length < 2 → deriveForecastInputs df =
      .error "Not enough data to derive forecast inputs") ∧
    (2 ≤ df.length → ∃ v, deriveForecastInputs df = .ok v) ∧
    (df.length = 2 → ∃ hddVal, deriveForecastInputs df =
      .ok { op := none, persist := none, hdd := hddVal, storage := none }) := by
  have hlen : (sortLe (fun a b => decide (a.date ≤ b.date)) df).length =
      df.length := (sortLe_perm _ _).length_eq
  refine ⟨?_, ?_, ?_⟩
  · intro h
    unfold deriveForecastInputs
    rw [if_pos (by rw [hlen]; exact h)]
  · intro h
    unfold deriveForecastInputs
    rw [if_neg (by rw [hlen]; omega)]
    exact ⟨_, rfl⟩
  · intro h2
    have hroll : ∀ (f : ForecastPanelRow → Option ℚ) (k : Nat), 2 < k →
        rollingMeanLast k
          ((sortLe (fun a b => decide (a.date ≤ b.date)) df).map f) = none := by
      intro f k hk
      unfold rollingMeanLast
      rw [if_pos (by rw [List.length_map, hlen, h2]; omega)]
    unfold deriveForecastInputs
    rw [if_neg (by rw [hlen]; omega)]
    refine ⟨(sortLe (fun a b => decide (a.date ≤ b.date)) df).getLast?.bind
      ForecastPanelRow.hddMedian, ?_⟩
    rw [hroll _ 3 (by omega), hroll _ 3 (by omega), hroll _ (365 * 3) (by omega)]
    rcases hlast : (sortLe (fun a b => decide (a.date ≤ b.date))
        df).getLast?.bind ForecastPanelRow.workingGas with _ | a
    · rw [hlast]
    · rw [hlast]

/-- CLAIM C5 as amended, witness: the empty panel raises and the concrete
2-row panel returns with NaN rolling features. -/
theorem derive_forecast_inputs_guard_witness :
    deriveForecastInputs ([] : List ForecastPanelRow) =
      .error "Not enough data to derive forecast inputs" ∧
    (∃ v, deriveForecastInputs c5TwoRows = .ok v) ∧
    (∃ hddVal, deriveForecastInputs c5TwoRows =
      .ok { op := none, persist := none, hdd := hddVal, storage := none }) :=
  ⟨(derive_forecast_inputs_guard []).1 (by decide),
   (derive_forecast_inputs_guard c5TwoRows).2.1 (by decide),
   (derive_forecast_inputs_guard c5TwoRows).2.2 (by decide)⟩

/-! ## Standardization — `zscore` and `_zscore_series`

`src/models/features/standardize.py` (used by the stress-event fit, which
persists its Scalers from it) and `src/models/volatility/vol_risk_model.py`
(`_zscore_series`, used by the volatility fit to build its persisted
scalers).  Series cells may be NaN (`none`); `np.sqrt` inside `np.nanstd`
is the parameter `sqrtQ` (every square root satisfies `sqrtQ 0 = 0`, the
only value these theorems use). -/

/-- `np.nanmean`: the mean of the non-NaN entries; NaN when there are
none. -/
def nanmean (xs : List (Option ℚ)) : Option ℚ :=
  let v := xs.filterMap id
  if v.length = 0 then none else some (v.sum / (v.length : ℚ))

/-- The population (ddof 0) variance over the non-NaN entries. -/
def nanvar (xs : List (Option ℚ)) : Option ℚ :=
  match nanmean xs with
  | none => none
  | some m =>
    let v := xs.filterMap id
    some ((v.map (fun a => (a - m) * (a - m))).sum / (v.length : ℚ))

/-- `np.nanstd(x)` (ddof 0): the square root of the variance. -/
def nanstd (sqrtQ : ℚ → ℚ) (xs : List (Option ℚ)) : Option ℚ :=
  (nanvar xs).map sqrtQ

/-- `zscore` from `standardize.py`: compute (or accept) mean and std, floor
the std to `1.0` when it is NaN or not above `eps = 1e-8` (NaN fails the
`>` comparison, so a NaN std is also floored to 1.0), and return the
z-scored array together with the mean and the floored std. -/
def zscore (sqrtQ : ℚ → ℚ) (s : List (Option ℚ)) (mean? std? : Option ℚ) :
    List (Option ℚ) × Option ℚ × ℚ :=
  let mean_ : Option ℚ := mean?.or (nanmean s)
  let std0 : Option ℚ := std?.or (nanstd sqrtQ s)
  let stdF : ℚ := match std0 with
    | some v => if v > 1 / 100000000 then v else 1
    | none => 1
  (s.map (fun xo => match xo, mean_ with
    | some xv, some m => some ((xv - m) / stdF)
    | _, _ => none), mean_, stdF)

/-- `_zscore_series` from `volatility/vol_risk_model.py`: when
`sd == 0 or np.isnan(sd)` it returns an all-zero vector together with the
mean and — crucially — `sd` itself when `sd` is `0.0` (only a NaN `sd` is
replaced by `1.0`); otherwise the z-scored series with the unfloored
`sd`. -/
def volZscoreSeries (sqrtQ : ℚ → ℚ) (s : List (Option ℚ)) :
    List (Option ℚ) × Option ℚ × Option ℚ :=
  let mu := nanmean s
  match nanstd sqrtQ s with
  | none => (List.replicate s.length (some 0), mu, some 1)
  | some v =>
    if v = 0 then (List.replicate s.length (some 0), mu, some 0)
    else (s.map (fun xo => match xo, mu with
      | some xv, some m => some ((xv - m) / v)
      | _, _ => none), mu, some v)

theorem filterMap_id_replicate_some (n : Nat) (c : ℚ) :
    (List.replicate n (some c)).filterMap id = List.replicate n c := by
  induction n with
  | zero => rfl
  | succ m ih => simp [List.replicate_succ, ih]

theorem nanmean_replicate {n : Nat} (hn : n ≠ 0) (c : ℚ) :
    nanmean (List.replicate n (some c)) = some c := by
  unfold nanmean
  rw [filterMap_id_replicate_some]
  rw [if_neg (by simpa using hn)]
  congr 1
  rw [List.sum_replicate, List.length_replicate, nsmul_eq_mul]
  exact mul_div_cancel_left₀ c (by exact_mod_cast hn)

theorem nanvar_replicate {n : Nat} (hn : n ≠ 0) (c : ℚ) :
    nanvar (List.replicate n (some c)) = some 0 := by
  unfold nanvar
  rw [nanmean_replicate hn c, filterMap_id_replicate_some]
  simp

/-- CLAIM C8, counterexample: the volatility fit's standardizer, applied to
the constant series `[5, 5, 5]`, returns std `0.0` in the Scaler triple —
not a strictly positive floored value (`sqrtQ = id` is adequate because
only `sqrt 0` is evaluated, and every square root sends 0 to 0). -/
theorem vol_scaler_std_zero_counterexample :
    (volZscoreSeries (fun q => q)
      [some 5, some 5, some 5]).2.2 = some 0 ∧
    ¬ (0 : ℚ) > 0 := by
  constructor
  · show (volZscoreSeries (fun q => q)
      (List.replicate 3 (some (5 : ℚ)))).2.2 = some 0
    have hstd : nanstd (fun q => q)
        (List.replicate 3 (some (5 : ℚ))) = some 0 := by
      unfold nanstd
      rw [nanvar_replicate (by decide) 5]
      rfl
    unfold volZscoreSeries
    rw [hstd]
    simp
  · decide

/-- CLAIM C8 as amended, main theorem.

For a constant (zero-variance) series: `standardize.zscore` — the
standardizer whose results the stress-event fit persists — yields an
all-zero z-vector, the series mean, and a std floored to exactly `1.0`
(strictly positive); the volatility fit's `_zscore_series` also yields an
all-zero z-vector but persists the unfloored std `0.0` (only a NaN std is
replaced by `1.0`). -/
theorem constant_series_standardization (sqrtQ : ℚ → ℚ) (h0 : sqrtQ 0 = 0)
    (c : ℚ) (n : Nat) (hn : n ≠ 0) :
    zscore sqrtQ (List.replicate n (some c)) none none =
      (List.replicate n (some 0), some c, 1) ∧
    volZscoreSeries sqrtQ (List.replicate n (some c)) =
      (List.replicate n (some 0), some c, some 0) := by
  have hstd : nanstd sqrtQ (List.replicate n (some c)) = some 0 := by
    unfold nanstd
    rw [nanvar_replicate hn c]
    simp [h0]
  constructor
  · unfold zscore
    simp only [Option.or, nanmean_replicate hn c, hstd]
    rw [if_neg (by norm_num)]
    simp [List.map_replicate]
  · unfold volZscoreSeries
    simp only [nanmean_replicate hn c, hstd]
    simp

/-- CLAIM C8 as amended, witness: the constant series `[5, 5, 5]`. -/
theorem constant_series_standardization_witness :
    (fun q => q) (0 : ℚ) = 0 ∧ (3 : Nat) ≠ 0 ∧
    (zscore (fun q => q) (List.replicate 3 (some (5 : ℚ))) none none =
      (List.replicate 3 (some 0), some 5, 1) ∧
    volZscoreSeries (fun q => q) (List.replicate 3 (some (5 : ℚ))) =
      (List.replicate 3 (some 0), some 5, some 0)) :=
  ⟨rfl, by decide,
   constant_series_standardization (fun q => q) rfl 5 3 (by decide)⟩

/-! ## Posterior Forecast Engines

`src/models/stress/forecast_stress_event.py` (`forecast_stress_event_prob`)
and `src/models/volatility/forecast_vol_risk.py` (`forecast_vol_risk`).
The posterior (`idata.posterior`) is a mapping from parameter name to the
chain-flattened draw vector (`values.reshape(-1)`), modelled as an
association list.  `np.exp` is the parameter `expF`;
`np.random.standard_t(df=nu, size=n)` is the parameter `noiseGen` applied
to the floored `nu` vector the code passes as `df=`. -/

/-- A per-feature Scaler dictionary entry; `mean?`/`std?` are `none` when
the corresponding key is absent (`.get("mean", 0.0)` / `.get("std", 1.0)`
supply the defaults). -/
structure ScalerD where
  mean? : Option ℚ
  std? : Option ℚ
deriving Repr, DecidableEq

/-- Name lookup in the posterior / scaler mapping. -/
def lookupStr {β : Type} (l : List (String × β)) (k : String) : Option β :=
  (l.find? (fun p => p.1 = k)).map Prod.snd

/-- `_z` (identical in both forecast modules): a degenerate std of 0 — or
NaN, which in this `ℚ` embedding behaves like the same guarded branch —
yields a neutral z of 0 instead of dividing. -/
def zNeutral (x mean std : ℚ) : ℚ :=
  if std = 0 then 0 else (x - mean) / std

/-- The per-feature standardization step of both forecast engines:
unscaled when `scalers is None` or the feature has no scaler entry, else
`_z` with the dictionary defaults `mean = 0.0`, `std = 1.0`. -/
def applyScaler (scalers : Option (List (String × ScalerD)))
    (name : String) (v : ℚ) : ℚ :=
  match scalers with
  | none => v
  | some s =>
    match lookupStr s name with
    | none => v
    | some sc => zNeutral v (sc.mean?.getD 0) (sc.std?.getD 1)

/-- The shared linear-predictor loop of both engines: start from the
intercept draws `a` and, for each input feature in `x` order, skip it when
the posterior has no `b_<name>` coefficient, else add
`b * standardized value` elementwise across draws.  (`post[name]` on a
missing intercept raises `KeyError`; the engines below check presence
first.) -/
def computeMu (post : List (String × List ℚ)) (x : List (String × ℚ))
    (scalers : Option (List (String × ScalerD))) : List ℚ :=
  x.foldl (fun mu p =>
    match lookupStr post ("b_" ++ p.1) with
    | none => mu
    | some b =>
      List.zipWith (fun m bi => m + bi * applyScaler scalers p.1 p.2) mu b)
    ((lookupStr post "a").getD [])

/-- `forecast_stress_event_prob`: per-draw `p = sigmoid(logit_p)` via
`1 / (1 + exp(-logit_p))`, and
`prob_alert = np.mean(p_samp > prob_threshold)` (count over length). -/
def forecastStressEventProb (expF : ℚ → ℚ) (post : List (String × List ℚ))
    (x : List (String × ℚ)) (scalers : Option (List (String × ScalerD)))
    (probThreshold : ℚ) : Except String (List ℚ × ℚ) :=
  match lookupStr post "a" with
  | none => .error "KeyError: a"
  | some _ =>
    let pSamp := (computeMu post x scalers).map
      (fun t => 1 / (1 + expF (-t)))
    .ok (pSamp,
      (pSamp.countP (fun p => decide (p > probThreshold)) : ℚ) /
        (pSamp.length : ℚ))

/-- `np.maximum(nu, min_nu)`: the elementwise-floored tail-heaviness draws
that `forecast_vol_risk` passes to `np.random.standard_t` as `df=`
(default `min_nu = 2.1`). -/
def volFlooredNu (post : List (String × List ℚ)) (minNu : ℚ) : List ℚ :=
  ((lookupStr post "nu").getD []).map (fun v => max v minNu)

/-- `forecast_vol_risk`: flatten `a`/`sigma`/`nu` (raising `KeyError` when
absent), floor `nu`, build `mu` with the shared loop, draw one Student-t
noise sample per draw (`noiseGen` applied to the floored `nu`), return
`y = mu + sigma * t` and `prob_exceed = np.mean(y > threshold)`. -/
def forecastVolRisk (post : List (String × List ℚ))
    (x : List (String × ℚ)) (scalers : Option (List (String × ScalerD)))
    (threshold : ℚ) (minNu : ℚ) (noiseGen : List ℚ → List ℚ) :
    Except String (List ℚ × ℚ) :=
  match lookupStr post "a", lookupStr post "sigma", lookupStr post "nu" with
  | some _, some sigma, some _ =>
    let mu := computeMu post x scalers
    let t := noiseGen (volFlooredNu post minNu)
    let ySamp := List.zipWith (fun m st => m + st) mu
      (List.zipWith (fun sg ti => sg * ti) sigma t)
    .ok (ySamp,
      (ySamp.countP (fun yv => decide (yv > threshold)) : ℚ) /
        (ySamp.length : ℚ))
  | _, _, _ => .error "KeyError"

theorem zipWith_mul_replicate_zero {t : List ℚ} {n : Nat}
    (ht : t.length = n) :
    List.zipWith (fun sg ti => sg * ti) (List.replicate n (0 : ℚ)) t =
      List.replicate n 0 := by
  induction t generalizing n with
  | nil => simp at ht; subst ht; rfl
  | cons a as ih =>
    cases n with
    | zero => simp at ht
    | succ m =>
      simp only [List.replicate_succ, List.zipWith_cons_cons, zero_mul]
      rw [ih (by simpa using ht)]

theorem zipWith_add_replicate_zero (c : ℚ) (n : Nat) :
    List.zipWith (fun m st => m + st) (List.replicate n c)
      (List.replicate n (0 : ℚ)) = List.replicate n c := by
  induction n with
  | zero => rfl
  | succ m ih =>
    simp only [List.replicate_succ, List.zipWith_cons_cons, add_zero, ih]

/-- Shared helper: with all-zero scale draws and a constantly-5 linear
predictor, the volatility forecast returns certainty at threshold 0.02,
whatever the Student-t noise is. -/
theorem vol_certain_exceed_of_zero_sigma
    (post : List (String × List ℚ)) (x : List (String × ℚ))
    (scalers : Option (List (String × ScalerD)))
    (noiseGen : List ℚ → List ℚ) (n : Nat) (hn : n ≠ 0)
    (ha : (lookupStr post "a").isSome)
    (hnu : (lookupStr post "nu").isSome)
    (hsigma : lookupStr post "sigma" = some (List.replicate n 0))
    (hmu : computeMu post x scalers = List.replicate n 5)
    (hlen : (noiseGen (volFlooredNu post (21 / 10))).length = n) :
    forecastVolRisk post x scalers (1 / 50) (21 / 10) noiseGen =
      .ok (List.replicate n 5, 1) := by
  rcases Option.isSome_iff_exists.mp ha with ⟨a0, ha0⟩
  rcases Option.isSome_iff_exists.mp hnu with ⟨nu0, hnu0⟩
  unfold forecastVolRisk
  rw [ha0, hsigma, hnu0]
  dsimp only
  rw [hmu, zipWith_mul_replicate_zero hlen, zipWith_add_replicate_zero]
  have hcount : (List.replicate n (5 : ℚ)).countP
      (fun yv => decide (yv > 1 / 50)) = n := by
    rw [List.countP_eq_length.mpr]
    · exact List.length_replicate n 5
    · intro a hamem
      rw [List.eq_of_mem_replicate hamem]
      norm_num
  rw [hcount, List.length_replicate]
  rw [div_self (by exact_mod_cast hn)]

/-- CLAIM C7 (volatility forecast: nu floor and certain exceedance), main
theorem.

1. Every tail-heaviness draw handed to the predictive sampler is floored to
   at least `min_nu = 2.1`, strictly greater than `2.0`.
2. Whatever noise the Student-t sampler produces, if the scale draws are
   all `0` and the computed `mu` vector is constantly `5.0`, the forecast
   at threshold `0.02` returns `prob_exceed = 1`. -/
theorem vol_risk_nu_floor_and_certain_exceed
    (post : List (String × List ℚ)) (x : List (String × ℚ))
    (scalers : Option (List (String × ScalerD)))
    (noiseGen : List ℚ → List ℚ) :
    (∀ v ∈ volFlooredNu post (21 / 10), (2 : ℚ) < v ∧ 21 / 10 ≤ v) ∧
    (∀ n : Nat, n ≠ 0 →
      (lookupStr post "a").isSome →
      (lookupStr post "nu").isSome →
      lookupStr post "sigma" = some (List.replicate n 0) →
      computeMu post x scalers = List.replicate n 5 →
      (noiseGen (volFlooredNu post (21 / 10))).length = n →
      forecastVolRisk post x scalers (1 / 50) (21 / 10) noiseGen =
        .ok (List.replicate n 5, 1)) := by
  constructor
  · intro v hv
    unfold volFlooredNu at hv
    rcases List.mem_map.mp hv with ⟨v0, _, hve⟩
    have h1 : 21 / 10 ≤ v := by
      rw [← hve]
      exact le_max_right v0 (21 / 10)
    exact ⟨lt_of_lt_of_le (by norm_num) h1, h1⟩
  · intro n hn ha hnu hsigma hmu hlen
    exact vol_certain_exceed_of_zero_sigma post x scalers noiseGen n hn
      ha hnu hsigma hmu hlen

/-- CLAIM C7, witness: two draws with `a = [5, 5]`, `sigma = [0, 0]`,
`nu = [3, 1]` (so the floor acts on the second draw), no features, and an
arbitrary concrete noise generator of the right length. -/
theorem vol_risk_nu_floor_and_certain_exceed_witness :
    (∀ v ∈ volFlooredNu
        [("a", [(5 : ℚ), 5]), ("sigma", [0, 0]), ("nu", [3, 1])] (21 / 10),
      (2 : ℚ) < v ∧ 21 / 10 ≤ v) ∧
    ((2 : Nat) ≠ 0 ∧
      (lookupStr [("a", [(5 : ℚ), 5]), ("sigma", [0, 0]), ("nu", [3, 1])]
        "a").isSome = true ∧
      lookupStr [("a", [(5 : ℚ), 5]), ("sigma", [0, 0]), ("nu", [3, 1])]
        "sigma" = some (List.replicate 2 0) ∧
      computeMu [("a", [(5 : ℚ), 5]), ("sigma", [0, 0]), ("nu", [3, 1])]
        [] none = List.replicate 2 5) ∧
    forecastVolRisk [("a", [(5 : ℚ), 5]), ("sigma", [0, 0]), ("nu", [3, 1])]
        [] none (1 / 50) (21 / 10) (fun l => l.map (fun _ => 7)) =
      .ok (List.replicate 2 5, 1) :=
  ⟨(vol_risk_nu_floor_and_certain_exceed
      [("a", [(5 : ℚ), 5]), ("sigma", [0, 0]), ("nu", [3, 1])] [] none
      (fun l => l.map (fun _ => 7))).1,
   ⟨by decide, by rfl, by rfl, by rfl⟩,
   (vol_risk_nu_floor_and_certain_exceed
      [("a", [(5 : ℚ), 5]), ("sigma", [0, 0]), ("nu", [3, 1])] [] none
      (fun l => l.map (fun _ => 7))).2 2 (by decide) (by rfl) (by rfl)
      (by rfl) (by rfl) (by rfl)⟩

/-- CLAIM C9 (logistic forecast determinism), main theorem: the logistic
stress-event forecast is a pure function of the posterior draws, the raw
feature mapping, the scalers and the probability threshold — two calls
with equal inputs return identical per-draw probability vectors and
`prob_alert` (no sampling step exists in its computation, in contrast to
`forecast_vol_risk`, whose embedding needs the `noiseGen` parameter). -/
theorem stress_forecast_deterministic (expF : ℚ → ℚ)
    (post post' : List (String × List ℚ)) (x x' : List (String × ℚ))
    (scalers scalers' : Option (List (String × ScalerD))) (thr thr' : ℚ)
    (h1 : post = post') (h2 : x = x') (h3 : scalers = scalers')
    (h4 : thr = thr') :
    forecastStressEventProb expF post x scalers thr =
      forecastStressEventProb expF post' x' scalers' thr' := by
  subst h1
  subst h2
  subst h3
  subst h4
  rfl

/-- CLAIM C9, witness: two textually separate but equal calls coincide. -/
theorem stress_forecast_deterministic_witness :
    forecastStressEventProb (fun _ => 1) [("a", [(0 : ℚ)])] [("hdd", 2)]
        none (3 / 10) =
      forecastStressEventProb (fun _ => 1) [("a", [(0 : ℚ)])] [("hdd", 2)]
        none (3 / 10) :=
  stress_forecast_deterministic (fun _ => 1) _ _ _ _ _ _ _ _
    rfl rfl rfl rfl

theorem countP_div_length_unit {l : List ℚ} (hl : l ≠ []) (p : ℚ → Bool) :
    0 ≤ ((l.countP p : ℚ) / (l.length : ℚ)) ∧
      ((l.countP p : ℚ) / (l.length : ℚ)) ≤ 1 := by
  have hlen : 0 < l.length := List.length_pos.mpr hl
  constructor
  · exact div_nonneg (by positivity) (by positivity)
  · rw [div_le_one (by exact_mod_cast hlen)]
    exact_mod_cast List.countP_le_length p

/-- CLAIM C10 (forecast probabilities lie in [0, 1]), main theorem.

With any exponential implementation satisfying `0 ≤ exp t` (true of
`np.exp`, underflow included): every per-draw probability of the logistic
forecast lies in `[0, 1]`, and for a non-empty draw vector both engines'
Monte Carlo alert/exceedance fractions lie in `[0, 1]`. -/
theorem forecast_probabilities_in_unit_interval (expF : ℚ → ℚ)
    (hexp : ∀ t : ℚ, 0 ≤ expF t) :
    (∀ (post : List (String × List ℚ)) (x : List (String × ℚ))
        (scalers : Option (List (String × ScalerD))) (thr : ℚ)
        (pSamp : List ℚ) (probAlert : ℚ),
      forecastStressEventProb expF post x scalers thr =
          .ok (pSamp, probAlert) →
      (∀ p ∈ pSamp, 0 ≤ p ∧ p ≤ 1) ∧
      (pSamp ≠ [] → 0 ≤ probAlert ∧ probAlert ≤ 1)) ∧
    (∀ (post : List (String × List ℚ)) (x : List (String × ℚ))
        (scalers : Option (List (String × ScalerD))) (thr minNu : ℚ)
        (noiseGen : List ℚ → List ℚ) (ySamp : List ℚ) (probExceed : ℚ),
      forecastVolRisk post x scalers thr minNu noiseGen =
          .ok (ySamp, probExceed) →
      ySamp ≠ [] → 0 ≤ probExceed ∧ probExceed ≤ 1) := by
  constructor
  · intro post x scalers thr pSamp probAlert h
    unfold forecastStressEventProb at h
    rcases hpa : lookupStr post "a" with _ | a
    · rw [hpa] at h
      exact Except.noConfusion h
    · rw [hpa] at h
      dsimp only at h
      rw [Except.ok.injEq, Prod.mk.injEq] at h
      obtain ⟨hps, hpb⟩ := h
      constructor
      · intro p hp
        rw [← hps] at hp
        rcases List.mem_map.mp hp with ⟨t, _, hte⟩
        have he : 0 ≤ expF (-t) := hexp (-t)
        constructor
        · rw [← hte]
          exact div_nonneg (by norm_num) (by linarith)
        · rw [← hte]
          rw [div_le_one (by linarith)]
          linarith
      · intro hne
        rw [← hpb, hps]
        exact countP_div_length_unit hne _
  · intro post x scalers thr minNu noiseGen ySamp probExceed h hne
    unfold forecastVolRisk at h
    rcases hpa : lookupStr post "a" with _ | a <;> rw [hpa] at h <;>
      rcases hpsg : lookupStr post "sigma" with _ | sigma <;>
        rw [hpsg] at h <;>
      rcases hpn : lookupStr post "nu" with _ | nu <;> rw [hpn] at h
    · exact Except.noConfusion h
    · exact Except.noConfusion h
    · exact Except.noConfusion h
    · exact Except.noConfusion h
    · exact Except.noConfusion h
    · exact Except.noConfusion h
    · exact Except.noConfusion h
    · dsimp only at h
      rw [Except.ok.injEq, Prod.mk.injEq] at h
      obtain ⟨hys, hpe⟩ := h
      rw [← hpe, hys]
      exact countP_div_length_unit hne _

/-- Concrete evaluation of the logistic forecast at intercept draws `[0]`,
no matching coefficients, threshold `0.3` (the spec's own test vector):
every per-draw probability is `1/2` and `prob_alert = 1`. -/
theorem stress_forecast_concrete_eval :
    forecastStressEventProb (fun _ => (1 : ℚ)) [("a", [(0 : ℚ)])] [] none
        (3 / 10) = .ok ([(1 : ℚ) / 2], 1) := by
  unfold forecastStressEventProb
  rw [show lookupStr [("a", [(0 : ℚ)])] "a" = some [0] from rfl]
  dsimp only
  rw [show computeMu [("a", [(0 : ℚ)])] [] none = [0] from rfl]
  have hmap : List.map (fun t => 1 / (1 + (fun _ => (1 : ℚ)) (-t)))
      [(0 : ℚ)] = [(1 : ℚ) / 2] := by
    norm_num
  rw [hmap]
  have hcount : List.countP (fun p => decide (p > 3 / 10))
      [(1 : ℚ) / 2] = 1 := by
    simp only [List.countP_cons, List.countP_nil, decide_eq_true_eq]
    norm_num
  rw [hcount]
  norm_num

/-- CLAIM C10, witness: the logistic forecast at intercept draws `[0]`
(per-draw probabilities `[1/2]`, `prob_alert = 1`) and the volatility
forecast at the certain-exceedance configuration (`prob_exceed = 1`) both
stay inside `[0, 1]`. -/
theorem forecast_probabilities_in_unit_interval_witness :
    ((∀ p ∈ [(1 : ℚ) / 2], 0 ≤ p ∧ p ≤ 1) ∧
      ([(1 : ℚ) / 2] ≠ [] → 0 ≤ (1 : ℚ) ∧ (1 : ℚ) ≤ 1)) ∧
    (0 ≤ (1 : ℚ) ∧ (1 : ℚ) ≤ 1) :=
  ⟨(forecast_probabilities_in_unit_interval (fun _ => 1)
      (fun _ => by norm_num)).1 [("a", [(0 : ℚ)])] [] none (3 / 10)
      [(1 : ℚ) / 2] 1 stress_forecast_concrete_eval,
   (forecast_probabilities_in_unit_interval (fun _ => 1)
      (fun _ => by norm_num)).2
      [("a", [(5 : ℚ), 5]), ("sigma", [0, 0]), ("nu", [3, 1])] [] none
      (1 / 50) (21 / 10) (fun l => l.map (fun _ => 7))
      (List.replicate 2 5) 1
      (vol_certain_exceed_of_zero_sigma
        [("a", [(5 : ℚ), 5]), ("sigma", [0, 0]), ("nu", [3, 1])] [] none
        (fun l => l.map (fun _ => 7)) 2 (by decide) (by rfl) (by rfl)
        (by rfl) (by rfl) (by rfl))
      (by decide)⟩

end GasBalanceRisk
